import Mathlib

/-!
Verification of the humanlog line-classification dispatcher and the
Journal-JSON rendering handler (repository jigish/humanlog).

The Go sources embedded here are `journal_json_handler.go` (the
`JournalJSONHandler` type and its methods) and the dispatcher `Scanner`.
Pure functions are translated to Lean functions; the handler's mutable
state becomes explicit state passing on a `Handler` structure; machine
integers become `Int`/`Nat`; `float64` JSON numbers become exact
rationals `ℚ` (every float64 value is a rational, and the comparisons
performed by the code are modelled exactly; decimal literals in the code
are taken at their exact decimal value).  Fallible code returns `Option`.

Library code that the repository calls but does not contain (Go stdlib
`encoding/json`, `fmt`, `strconv`, `time`, the fatih/color styling, and
the tabwriter) is modelled by computable Lean functions that follow the
documented stdlib behaviour on the inputs this development evaluates;
each such model carries a doc comment saying what it models.
-/

/-! ## Byte/string primitives

Input lines are byte strings; we model bytes as `Char` (all inputs of
interest are ASCII) and keep `String` as the working type, recursing on
`String.data` where Go iterates over bytes. -/

/-- Test whether `pre` is a leading segment of `l` (Go `bytes.HasPrefix`). -/
def leadsWith : List Char → List Char → Bool
  | [], _ => true
  | _ :: _, [] => false
  | p :: ps, c :: cs => p == c && leadsWith ps cs

/-- Go `bytes.Contains`: does `needle` occur as a contiguous run inside `hay`. -/
def listHasSub (needle : List Char) : List Char → Bool
  | [] => leadsWith needle []
  | c :: cs => leadsWith needle (c :: cs) || listHasSub needle cs

/-- String wrapper for `listHasSub`. -/
def strContains (hay needle : String) : Bool :=
  listHasSub needle.data hay.data

/-- Go `strings.HasPrefix` on our byte model. -/
def strLeadsWith (s pre : String) : Bool :=
  leadsWith pre.data s.data

/-- Drop a leading segment when present (Go `bytes.TrimPrefix`). -/
def listTrimLead (pre l : List Char) : List Char :=
  if leadsWith pre l then l.drop pre.length else l

/-- Go `strings.ToLower` restricted to ASCII (the stdlib function is
Unicode-aware; every field name this development evaluates is ASCII,
where the two agree). -/
def asciiLowerChar (c : Char) : Char :=
  if 'A' ≤ c ∧ c ≤ 'Z' then Char.ofNat (c.toNat + 32) else c

/-- ASCII lowercase of a string, byte by byte. -/
def asciiLower (s : String) : String :=
  String.mk (s.data.map asciiLowerChar)

/-- Byte-wise lexicographic `≤` on character lists, the order Go
compares strings with (all evaluated data is ASCII, where byte order
and character order agree). -/
def listLexLe : List Char → List Char → Bool
  | [], _ => true
  | _ :: _, [] => false
  | a :: as, b :: bs => a.toNat < b.toNat || (a == b && listLexLe as bs)

/-- Go string `<=`, used by `sort.Strings`. -/
def strLe (a b : String) : Bool := listLexLe a.data b.data

/-- Insert `x` into a sorted list: after every element `y` with
`le y x`, before the first strictly greater one.  This placement makes
the sort below stable. -/
def insertLe {α : Type} (le : α → α → Bool) (x : α) : List α → List α
  | [] => [x]
  | y :: ys => if le y x then y :: insertLe le x ys else x :: y :: ys

/-- Stable insertion sort; models Go `sort.Strings`/`sort.Stable`
(ascending per the comparator, equal elements keeping their order).
`sort.Strings` is not stable, but over a total antisymmetric order the
sorted permutation is unique, so any correct sort agrees with it. -/
def insSort {α : Type} (le : α → α → Bool) (l : List α) : List α :=
  l.foldl (fun acc x => insertLe le x acc) []

/-- Join a list of strings with a separator (Go `strings.Join`). -/
def joinSep (sep : String) : List String → String
  | [] => ""
  | [s] => s
  | s :: rest => s ++ sep ++ joinSep sep rest

/-! ## Decimal digit rendering (Go `fmt` `%d` on integers) -/

/-- One decimal digit as a character. -/
def digitChar (d : Nat) : Char := Char.ofNat (48 + d)

/-- Decimal digits of `n`, least significant first; the fuel argument
only bounds the recursion and is irrelevant once at least `n`. -/
def natDigitsL : Nat → Nat → List Nat
  | 0, _ => []
  | _ + 1, 0 => []
  | f + 1, n => (n % 10) :: natDigitsL f (n / 10)

/-- Decimal rendering of a natural number, as Go `fmt` prints it. -/
def natStr (n : Nat) : String :=
  if n = 0 then "0" else String.mk (((natDigitsL (n + 1) n).reverse).map digitChar)

/-- Decimal rendering of an integer, as Go `fmt` `%d` prints an `int`. -/
def intStr : Int → String
  | Int.ofNat n => natStr n
  | Int.negSucc n => "-" ++ natStr (n + 1)

/-! ## Styling (model of the fatih/color package)

A `Color` is the list of ANSI attribute codes it was built from;
`Color.sprint` wraps text in the corresponding escape sequence, which is
what `color.Color.Sprint` emits when color output is enabled. -/

structure Color where
  code : Nat
deriving DecidableEq, Repr

/-- Modelled from the fatih/color library (not repository code):
`Sprint` wraps its argument between the SGR sequence of the color's
attribute and the reset sequence. -/
def Color.sprint (c : Color) (s : String) : String :=
  "\x1b[" ++ natStr c.code ++ "m" ++ s ++ "\x1b[0m"

/-- ANSI code of `color.FgHiWhite`, the attribute the handler hard-codes
for the message role. -/
def fgHiWhite : Color := ⟨97⟩

/-! ## Handler options

Modelled from the repository's `HandlerOptions` as used by
`journal_json_handler.go` and `Scanner` (the defining file is not under
`src/`; every field below is determined by those uses).  The Go
`map[string]struct` sets `Keep`/`Skip` become lists queried by
membership. -/

structure HandlerOptions where
  skipUnchanged : Bool
  sortLongest : Bool
  truncates : Bool
  truncateLength : Nat
  lightBg : Bool
  keep : List String
  skip : List String
  timeFormat : String
  keyColor : Color
  valColor : Color
  timeLightBgColor : Color
  timeDarkBgColor : Color
  msgLightBgColor : Color
  msgDarkBgColor : Color
  msgAbsentLightBgColor : Color
  msgAbsentDarkBgColor : Color
  debugLevelColor : Color
  infoLevelColor : Color
  warnLevelColor : Color
  errorLevelColor : Color
  fatalLevelColor : Color
  unknownLevelColor : Color
deriving DecidableEq, Repr

/-- A concrete option value used by the closed examples below; the exact
codes are irrelevant to the theorems, they only need to be fixed. -/
def defaultOpts : HandlerOptions where
  skipUnchanged := false
  sortLongest := false
  truncates := true
  truncateLength := 15
  lightBg := false
  keep := []
  skip := []
  timeFormat := "Jan _2 15:04:05"
  keyColor := ⟨32⟩
  valColor := ⟨36⟩
  timeLightBgColor := ⟨34⟩
  timeDarkBgColor := ⟨37⟩
  msgLightBgColor := ⟨30⟩
  msgDarkBgColor := ⟨97⟩
  msgAbsentLightBgColor := ⟨30⟩
  msgAbsentDarkBgColor := ⟨37⟩
  debugLevelColor := ⟨35⟩
  infoLevelColor := ⟨36⟩
  warnLevelColor := ⟨33⟩
  errorLevelColor := ⟨31⟩
  fatalLevelColor := ⟨41⟩
  unknownLevelColor := ⟨90⟩

/-! ## Field visibility (`shouldShowKey`, `shouldShowUnchanged`) -/

/-- Translation of `JournalJSONHandler.shouldShowKey`
(`journal_json_handler.go` lines 175-200): a non-empty Keep set
force-shows a member key; otherwise a non-empty Skip set hides a member
key; otherwise keys starting with an underscore are hidden. -/
def shouldShowKey (o : HandlerOptions) (key : String) : Bool :=
  if o.keep.length ≠ 0 ∧ (o.keep.contains key ∨ o.keep.contains (asciiLower key)) then
    true
  else if o.skip.length ≠ 0 ∧ (o.skip.contains key ∨ o.skip.contains (asciiLower key)) then
    false
  else if strLeadsWith key "_" then
    false
  else
    true

/-- Translation of `JournalJSONHandler.shouldShowUnchanged`
(lines 202-214): an unchanged field is still shown exactly when a
non-empty Keep set contains its exact or lowercase name. -/
def shouldShowUnchanged (o : HandlerOptions) (key : String) : Bool :=
  if o.keep.length ≠ 0 ∧ o.keep.contains key then true
  else if o.keep.length ≠ 0 ∧ o.keep.contains (asciiLower key) then true
  else false

/-! ## JSON values (model of Go `encoding/json` decoding into `interface`)

`json.Unmarshal` into `map[string]interface` produces `float64` for
numbers, `string`, `bool`, `nil`, `[]interface` and nested maps.
`float64` is modelled as an exact rational: every finite float64 is a
rational, and all theorems below evaluate the model only at values where
the float64 computations of the source are exact. -/

inductive JsonValue where
  | num (v : ℚ)
  | str (s : String)
  | bool (b : Bool)
  | null
  | arr (elems : List JsonValue)
  | obj (fields : List (String × JsonValue))

/-- Whitespace skipping of the JSON grammar. -/
def skipWs : List Char → List Char
  | ' ' :: rest => skipWs rest
  | '\t' :: rest => skipWs rest
  | '\n' :: rest => skipWs rest
  | '\r' :: rest => skipWs rest
  | cs => cs

/-- The JSON escape table: escape letter paired with the character it
denotes. -/
def escTable : List (Char × Char) :=
  [('"', '"'), ('\\', '\\'), ('/', '/'), ('n', Char.ofNat 10),
   ('t', Char.ofNat 9), ('r', Char.ofNat 13), ('b', Char.ofNat 8), ('f', Char.ofNat 12)]

/-- JSON string escapes (model of the subset exercised here; `\uXXXX`
is not modelled and makes the parse fail, which no input below uses). -/
def escChar (c : Char) : Option Char :=
  (escTable.find? (fun p => p.1 == c)).map (fun p => p.2)

/-- Parse a JSON string body after the opening quote; returns the
decoded characters and the input after the closing quote. -/
def parseStrBody : List Char → Option (List Char × List Char)
  | [] => none
  | '"' :: rest => some ([], rest)
  | '\\' :: c :: rest =>
    match escChar c with
    | some d => (parseStrBody rest).map (fun p => (d :: p.1, p.2))
    | none => none
  | '\\' :: [] => none
  | c :: rest => (parseStrBody rest).map (fun p => (c :: p.1, p.2))

/-- Longest leading run of decimal digits. -/
def takeDigits : List Char → (List Char × List Char)
  | [] => ([], [])
  | c :: cs =>
    if c.isDigit then
      let p := takeDigits cs
      (c :: p.1, p.2)
    else
      ([], c :: cs)

/-- Value of a digit run, most significant first. -/
def digitsToNat : List Char → Nat
  | [] => 0
  | c :: cs => (c.toNat - 48) * 10 ^ cs.length + digitsToNat cs

/-- Parse a JSON number (grammar `-?(0|[1-9][0-9]*)(.[0-9]+)?([eE][+-]?[0-9]+)?`)
into its exact rational value. -/
def parseNum (cs : List Char) : Option (ℚ × List Char) :=
  let sign : Int := if cs.headD ' ' = '-' then -1 else 1
  let cs1 := if cs.headD ' ' = '-' then cs.tail else cs
  let ip := takeDigits cs1
  if ip.1 = [] then none
  else if ip.1.headD ' ' = '0' ∧ ip.1.length ≠ 1 then none
  else
    let afterInt := ip.2
    let fp :=
      match afterInt with
      | '.' :: rest =>
        let d := takeDigits rest
        if d.1 = [] then none else some (d.1, d.2)
      | _ => some ([], afterInt)
    match fp with
    | none => none
    | some (fracDs, afterFrac) =>
      let ep :=
        match afterFrac with
        | 'e' :: rest => some rest
        | 'E' :: rest => some rest
        | _ => none
      match ep with
      | none =>
        let m : Int := sign * Int.ofNat (digitsToNat (ip.1 ++ fracDs))
        some (Rat.divInt m (Int.ofNat (10 ^ fracDs.length)), afterFrac)
      | some rest =>
        let esign : Int := if rest.headD ' ' = '-' then -1 else 1
        let rest1 := if rest.headD ' ' = '-' ∨ rest.headD ' ' = '+' then rest.tail else rest
        let ed := takeDigits rest1
        if ed.1 = [] then none
        else
          let m : Int := sign * Int.ofNat (digitsToNat (ip.1 ++ fracDs))
          let e10 : Int := esign * Int.ofNat (digitsToNat ed.1) - Int.ofNat fracDs.length
          let q :=
            if 0 ≤ e10 then Rat.divInt (m * Int.ofNat (10 ^ e10.toNat)) 1
            else Rat.divInt m (Int.ofNat (10 ^ (-e10).toNat))
          some (q, ed.2)

mutual

/-- Parse one JSON value (model of the `encoding/json` grammar; the fuel
only bounds recursion and any value exceeding it fails to parse, which
no input below does). -/
def parseVal : Nat → List Char → Option (JsonValue × List Char)
  | 0, _ => none
  | f + 1, cs =>
    match skipWs cs with
    | '"' :: rest => (parseStrBody rest).map (fun p => (JsonValue.str (String.mk p.1), p.2))
    | '{' :: rest =>
      match skipWs rest with
      | '}' :: rest1 => some (JsonValue.obj [], rest1)
      | _ => (parseObjMembers f rest).map (fun p => (JsonValue.obj p.1, p.2))
    | '[' :: rest =>
      match skipWs rest with
      | ']' :: rest1 => some (JsonValue.arr [], rest1)
      | _ => (parseArrElems f rest).map (fun p => (JsonValue.arr p.1, p.2))
    | 't' :: 'r' :: 'u' :: 'e' :: rest => some (JsonValue.bool true, rest)
    | 'f' :: 'a' :: 'l' :: 's' :: 'e' :: rest => some (JsonValue.bool false, rest)
    | 'n' :: 'u' :: 'l' :: 'l' :: rest => some (JsonValue.null, rest)
    | c :: rest =>
      if c = '-' ∨ c.isDigit then
        (parseNum (c :: rest)).map (fun p => (JsonValue.num p.1, p.2))
      else none
    | [] => none

/-- Parse the members of a JSON object after the opening brace, in
source order. -/
def parseObjMembers : Nat → List Char → Option (List (String × JsonValue) × List Char)
  | 0, _ => none
  | f + 1, cs =>
    match skipWs cs with
    | '"' :: rest =>
      match parseStrBody rest with
      | none => none
      | some (kcs, rest1) =>
        match skipWs rest1 with
        | ':' :: rest2 =>
          match parseVal f rest2 with
          | none => none
          | some (v, rest3) =>
            match skipWs rest3 with
            | ',' :: rest4 =>
              (parseObjMembers f rest4).map (fun p => ((String.mk kcs, v) :: p.1, p.2))
            | '}' :: rest4 => some ([(String.mk kcs, v)], rest4)
            | _ => none
        | _ => none
    | _ => none

/-- Parse the elements of a JSON array after the opening bracket. -/
def parseArrElems : Nat → List Char → Option (List JsonValue × List Char)
  | 0, _ => none
  | f + 1, cs =>
    match parseVal f cs with
    | none => none
    | some (v, rest) =>
      match skipWs rest with
      | ',' :: rest1 => (parseArrElems f rest1).map (fun p => (v :: p.1, p.2))
      | ']' :: rest1 => some ([v], rest1)
      | _ => none

end

/-- Model of `json.Unmarshal` applied to a whole line: one value,
surrounded only by whitespace. -/
def parseJson (d : String) : Option JsonValue :=
  match parseVal (d.length + 1) d.data with
  | some (v, rest) => if skipWs rest = [] then some v else none
  | none => none

/-! ## Rendering of field values (Go `fmt` verbs) -/

/-- Decimal expansion search: the least `k ≤ 1099` with `|v|·10^k`
integral, returned with that integer.  Every float64 value has such a
`k` (denominators divide `2^1074`); rationals without one (never
produced by decoding a float64) get `none`. -/
def decExpand (v : ℚ) : Option (Nat × Nat) :=
  ((List.range 1100).find? (fun k => (v.num.natAbs * 10 ^ k) % v.den = 0)).map
    (fun k => ((v.num.natAbs * 10 ^ k) / v.den, k))

/-- Exponent suffix of Go scientific notation (sign, at least two digits). -/
def expStr (e : Int) : String :=
  let a := e.natAbs
  (if e < 0 then "-" else "+") ++ (if a < 10 then "0" ++ natStr a else natStr a)

/-- Scientific branch of Go `%g`: `d.dddde±XX`. -/
def fmtE (sign : String) (sig : List Char) (e : Int) : String :=
  sign ++ String.mk (sig.take 1) ++
    (if sig.length ≤ 1 then "" else "." ++ String.mk (sig.drop 1)) ++
    "e" ++ expStr e

/-- Plain-decimal branch of Go `%g`: digits with the point placed per
the decimal exponent, zero-padded as needed. -/
def fmtF (sign : String) (sig : List Char) (e : Int) : String :=
  if 0 ≤ e then
    if sig.length ≤ e.toNat + 1 then
      sign ++ String.mk sig ++ String.mk (List.replicate (e.toNat + 1 - sig.length) '0')
    else
      sign ++ String.mk (sig.take (e.toNat + 1)) ++ "." ++ String.mk (sig.drop (e.toNat + 1))
  else
    sign ++ "0." ++ String.mk (List.replicate (e.natAbs - 1) '0') ++ String.mk sig

/-- Significant decimal digits (most significant first, trailing zeros
of the integer `n` stripped) as characters. -/
def sigDigits (n : Nat) : List Char :=
  (((natDigitsL (n + 1) n).dropWhile (· == 0)).reverse).map digitChar

/-- Decimal exponent of `n / 10^k` (position of the leading digit). -/
def decExp (n k : Nat) : Int :=
  ((natDigitsL (n + 1) n).length : Int) - 1 - (k : Int)

/-- Dispatch between the scientific and plain-decimal branches. -/
def formatGCore (sign : String) : Option (Nat × Nat) → String
  | none => sign ++ "?"
  | some (n, k) =>
    if decExp n k < -4 ∨ 6 ≤ decExp n k then fmtE sign (sigDigits n) (decExp n k)
    else fmtF sign (sigDigits n) (decExp n k)

/-- Modelled from Go `fmt` `%g` on `float64` (strconv shortest `g`
format): scientific form when the decimal exponent is below `-4` or at
least the shortest-precision cutoff `6`, plain decimal otherwise.  The
digits are the exact decimal digits of the rational; Go prints the
shortest float64-roundtripping digits, which agree on every value this
development evaluates.  Rationals with no finite decimal expansion
(never produced by decoding a float64) render a `?`. -/
def formatG (v : ℚ) : String :=
  if v.num = 0 then "0"
  else formatGCore (if v.num < 0 then "-" else "") (decExpand v)

/-- Integer form of a rendered number: non-empty, nothing but decimal
digits and a sign — in particular no decimal point and no exponent. -/
def isIntForm (s : String) : Bool :=
  decide (s.data ≠ []) && s.data.all (fun c => c.isDigit || c == '-')

/-- Escapes of Go `fmt` `%q` (the subset exercised here; `%q` also
escapes control and non-printable characters, which no input below
contains). -/
def quoteGoChar (c : Char) : List Char :=
  if c = '"' then ['\\', '"']
  else if c = '\\' then ['\\', '\\']
  else if c = '\n' then ['\\', 'n']
  else if c = '\t' then ['\\', 't']
  else if c = '\r' then ['\\', 'r']
  else [c]

/-- Modelled from Go `fmt` `%q` on strings: double-quoted with escapes. -/
def quoteGo (s : String) : String :=
  "\"" ++ String.mk ((s.data.map quoteGoChar).flatten) ++ "\""

/-- Modelled from Go `fmt` `%v`: default formatting of a decoded JSON
value (floats as `%g`, strings bare, `nil` as `<nil>`, slices
space-joined in brackets, maps space-joined `key:value` sorted by key).
The fuel bounds recursion depth into nested containers. -/
def sprintV : Nat → JsonValue → String
  | 0, _ => ""
  | _ + 1, JsonValue.num v => formatG v
  | _ + 1, JsonValue.str s => s
  | _ + 1, JsonValue.bool b => if b then "true" else "false"
  | _ + 1, JsonValue.null => "<nil>"
  | f + 1, JsonValue.arr l => "[" ++ joinSep " " (l.map (sprintV f)) ++ "]"
  | f + 1, JsonValue.obj l =>
    "map[" ++
      joinSep " "
        ((insSort (fun a b => strLe a.1 b.1) l).map
          (fun p => p.1 ++ ":" ++ sprintV f p.2)) ++ "]"

/-- The integer-likeness test of `UnmarshalJournalJSON` line 93:
`v-math.Floor(v) < 0.000001 && v < 1e9`, performed exactly over ℚ.
`math.Floor v` is `v.num / v.den` (euclidean division by the positive
denominator, see `Rat.floor_def`), and each comparison is
cross-multiplied by the positive denominator; `0.000001` is taken at
its exact decimal value. -/
def looksLikeInt (v : ℚ) : Bool :=
  (v.num - v.num / (v.den : Int) * (v.den : Int)) * 1000000 < (v.den : Int) &&
  v.num < 1000000000 * (v.den : Int)

/-- The value-stringification switch of `UnmarshalJournalJSON`
(lines 90-104): near-integral small floats via `%d` of `int(v)`
(truncation toward zero), other floats via `%g`, strings via `%q`,
anything else via `%v`. -/
def stringifyValue : JsonValue → String
  | JsonValue.num v =>
    if looksLikeInt v then intStr (Int.tdiv v.num (v.den : Int)) else formatG v
  | JsonValue.str s => quoteGo s
  | v => sprintV 1000 v

/-! ## Time (model of Go `time` and `strconv.ParseInt`) -/

/-- Model of Go `time.Time` restricted to what the handler stores: the
zero value `time.Time` (distinct from the epoch) or a value produced by
`time.Unix`. -/
inductive GoTime where
  | zero
  | unix (sec : Int) (nsec : Int)
deriving DecidableEq, Repr

/-- Modelled from Go `time.Unix`: nanoseconds are normalized into
`[0, 1e9)` carrying into the seconds. -/
def timeUnix (sec nsec : Int) : GoTime :=
  if nsec < 0 ∨ 1000000000 ≤ nsec then
    let n := Int.tdiv nsec 1000000000
    let sec1 := sec + n
    let nsec1 := nsec - n * 1000000000
    if nsec1 < 0 then GoTime.unix (sec1 - 1) (nsec1 + 1000000000) else GoTime.unix sec1 nsec1
  else GoTime.unix sec nsec

/-- Modelled from Go `time.Time.Format` (stdlib, not repository code):
layout-driven rendering abstracted to an injective encoding of the
layout and the time value; no claim below depends on the rendered text
of a timestamp, only on which time value is rendered. -/
def GoTime.goFormat : GoTime → String → String
  | GoTime.zero, layout => "time<" ++ layout ++ "|zero>"
  | GoTime.unix s n, layout => "time<" ++ layout ++ "|" ++ intStr s ++ "." ++ intStr n ++ ">"

/-- Modelled from Go `strconv.ParseInt(s, 10, 64)`: optional sign, at
least one digit, all digits, result within `int64`. -/
def parseInt64 (s : String) : Option Int :=
  let neg := s.data.headD ' ' = '-'
  let ds := if s.data.headD ' ' = '-' ∨ s.data.headD ' ' = '+' then s.data.tail else s.data
  if ds = [] then none
  else if ds.all (·.isDigit) then
    let m : Int := Int.ofNat (digitsToNat ds)
    let r : Int := if neg then -m else m
    if -(2 ^ 63) ≤ r ∧ r < 2 ^ 63 then some r else none
  else none

/-! ## Association-list model of Go string-keyed maps

Insertion replaces an existing key (Go map assignment); `buildMap`
folds object members left to right, so duplicate JSON keys have
last-wins semantics, as `encoding/json` decodes them. -/

/-- Lookup, Go `m[k]` with its `ok` flag as `Option`. -/
def mapGet {α : Type} (m : List (String × α)) (k : String) : Option α :=
  (m.find? (fun p => p.1 == k)).map (fun p => p.2)

/-- Go `m[k] = v`. -/
def mapInsert {α : Type} (m : List (String × α)) (k : String) (v : α) : List (String × α) :=
  if (m.find? (fun p => p.1 == k)).isSome then
    m.map (fun p => if p.1 == k then (k, v) else p)
  else m ++ [(k, v)]

/-- Go `delete(m, k)`. -/
def mapDel {α : Type} (m : List (String × α)) (k : String) : List (String × α) :=
  m.filter (fun p => !(p.1 == k))

/-- The map produced by decoding a JSON object's members in order. -/
def buildMap {α : Type} (l : List (String × α)) : List (String × α) :=
  l.foldl (fun m p => mapInsert m p.1 p.2) []

/-! ## The Journal-JSON handler -/

/-- State of `JournalJSONHandler`: the current decoded entry
(`Level`/`Time`/`Message`/`Fields`) and the previous `Fields` snapshot
`last`.  The `buf`/`out` tabwriter plumbing is modelled away: on a
single line the column-aligning writer emits the formatted text
unchanged (all column widths come from that line alone, with padding 0),
so `Prettify`'s write-then-flush is the identity on the content.
The Go zero values (nil maps) are the empty association lists. -/
structure Handler where
  opts : HandlerOptions
  level : String
  time : GoTime
  message : String
  fields : List (String × String)
  last : List (String × String)
deriving DecidableEq, Repr

/-- A freshly constructed handler, as `Scanner` builds it. -/
def mkHandler (o : HandlerOptions) : Handler :=
  ⟨o, "", GoTime.zero, "", [], []⟩

/-- Translation of `JournalJSONHandler.clear` (lines 33-42): reset the
entry, move the current `Fields` into `last`, fresh empty `Fields`. -/
def Handler.clear (h : Handler) : Handler :=
  { h with level := "", time := GoTime.zero, message := "",
           last := h.fields, fields := [] }

/-- The byte literal `TryHandle` searches for (line 46), quotes included. -/
def journalMarker : String := "\"_SOURCE_REALTIME_TIMESTAMP\""

/-- Second half of `UnmarshalJournalJSON` (lines 78-104): `MESSAGE` and
`PRIORITY` are taken (and deleted) only when present with string type —
a failed type assertion leaves the Go zero value "" — and every
remaining key is stringified into `Fields` (inserting into the map the
handler already holds, line 86-88 and 90-104). -/
def unmarshalRest (h : Handler) (raw : List (String × JsonValue)) : Handler :=
  let p1 : String × List (String × JsonValue) :=
    match mapGet raw ("MESSAGE") with
    | some (JsonValue.str s) => (s, mapDel raw ("MESSAGE"))
    | _ => ("", raw)
  let p2 : String × List (String × JsonValue) :=
    match mapGet p1.2 ("PRIORITY") with
    | some (JsonValue.str s) => (s, mapDel p1.2 ("PRIORITY"))
    | _ => ("", p1.2)
  let fields := p2.2.foldl (fun fs q => mapInsert fs q.1 (stringifyValue q.2)) h.fields
  { h with message := p1.1, level := p2.1, fields := fields }

/-- Translation of `JournalJSONHandler.UnmarshalJournalJSON`
(lines 58-107).  Errors (`none`): unparseable JSON, a non-object
non-null top level (Go: cannot unmarshal into a map), a
`_SOURCE_REALTIME_TIMESTAMP` member that is not a string, or one whose
string fails `strconv.ParseInt`.  All error paths leave the handler
unmodified, as in the source, where every `return err` precedes the
first assignment to `h`.  A JSON `null` leaves the map `nil`
(`json.Unmarshal` accepts it without touching the target). -/
def unmarshalJournalJSON (h : Handler) (data : String) : Option Handler :=
  match parseJson data with
  | some (JsonValue.obj pairs) =>
    let raw := buildMap pairs
    match mapGet raw ("_SOURCE_REALTIME_TIMESTAMP") with
    | some (JsonValue.str tstr) =>
      match parseInt64 tstr with
      | some micros =>
        some (unmarshalRest
          { h with time := timeUnix (Int.tdiv micros 1000000) (Int.tmod micros 1000000 * 1000) }
          (mapDel raw ("_SOURCE_REALTIME_TIMESTAMP")))
      | none => none
    | some _ => none
    | none => some (unmarshalRest h raw)
  | some JsonValue.null => some (unmarshalRest h [])
  | some _ => none
  | none => none

/-- Translation of `JournalJSONHandler.TryHandle` (lines 45-55): bail
out without touching state when the marker bytes are absent; on a
decode error call `clear` and report failure. -/
def Handler.tryHandle (h : Handler) (d : String) : Handler × Bool :=
  if ¬ strContains d journalMarker then (h, false)
  else
    match unmarshalJournalJSON h d with
    | none => (h.clear, false)
    | some h1 => (h1, true)

/-- The severity switch of `Prettify` (lines 141-155). -/
def levelText (o : HandlerOptions) (lvl : String) : String :=
  if lvl = "7" then o.debugLevelColor.sprint ("DEBU")
  else if lvl = "5" ∨ lvl = "6" then o.infoLevelColor.sprint ("INFO")
  else if lvl = "4" then o.warnLevelColor.sprint ("WARN")
  else if lvl = "3" then o.errorLevelColor.sprint ("ERRO")
  else if lvl = "2" ∨ lvl = "1" ∨ lvl = "0" then o.fatalLevelColor.sprint ("FATA")
  else o.unknownLevelColor.sprint ("UNKN")

/-- The message style of `Prettify` (lines 120-132): the
background-dependent selection is computed and then unconditionally
overwritten with `color.New(color.FgHiWhite)` on line 131. -/
def prettifyMsgColor (o : HandlerOptions) : Color :=
  let msgColor := if o.lightBg then o.msgLightBgColor else o.msgDarkBgColor
  let msgColor := fgHiWhite
  msgColor

/-- The message-absent style of `Prettify` (lines 120-132): selected
from the options, then overwritten with `FgHiWhite` on line 132. -/
def prettifyMsgAbsentColor (o : HandlerOptions) : Color :=
  let msgAbsentColor := if o.lightBg then o.msgAbsentLightBgColor else o.msgAbsentDarkBgColor
  let msgAbsentColor := fgHiWhite
  msgAbsentColor

/-- The message column of `Prettify` (lines 134-139). -/
def prettifyMsg (h : Handler) : String :=
  if h.message = "" then (prettifyMsgAbsentColor h.opts).sprint ("<no msg>")
  else (prettifyMsgColor h.opts).sprint h.message

/-- The filtering loop of `joinKVs` (lines 218-228), kept as key/value
pairs before rendering: a pair survives when `shouldShowKey` accepts it
and, under `skipUnchanged`, when it is absent from `last`, changed, or
forced by `shouldShowUnchanged`. -/
def visiblePairs (h : Handler) (skipUnchanged : Bool) : List (String × String) :=
  h.fields.filter (fun kv =>
    shouldShowKey h.opts kv.1 &&
    !(skipUnchanged && mapGet h.last kv.1 == some kv.2 && !shouldShowUnchanged h.opts kv.1))

/-- The rendering of one surviving pair (lines 229-238): styled key,
separator, value truncated at `TruncateLength` with a `...` marker when
`Truncates` is set (Go slices bytes; all evaluated values are ASCII,
where bytes and characters agree), styled value. -/
def renderKV (o : HandlerOptions) (sep : String) (kv : String × String) : String :=
  let kstr := o.keyColor.sprint kv.1
  let vstr :=
    if o.truncates ∧ kv.2.length > o.truncateLength then kv.2.take o.truncateLength ++ "..."
    else kv.2
  kstr ++ sep ++ o.valColor.sprint vstr

/-- Translation of `JournalJSONHandler.joinKVs` (lines 216-248):
render the visible pairs, `sort.Strings` them (ascending lexicographic;
any correct sort of strings yields this unique result), then, when
`SortLongest` is set, the stable by-length pass (`sort.Stable` over the
`byLongest` ordering, whose code lives outside `src/`; modelled from
the spec: ascending rendered length, ties keeping the previous order —
`mergeSort` is stable). -/
def joinKVs (h : Handler) (skipUnchanged : Bool) (sep : String) : List String :=
  let kv := (visiblePairs h skipUnchanged).map (renderKV h.opts sep)
  let kv := insSort strLe kv
  if h.opts.sortLongest then insSort (fun a b => decide (a.length ≤ b.length)) kv else kv

/-- Translation of `JournalJSONHandler.Prettify` (lines 110-173): the
`fmt.Fprintf` format `"%s |%s| %s\t %s"` over the styled time, the
severity text, the message column and the tab-space-joined key=value
pairs, with the deferred `clear` returned as the successor state.  The
tabwriter pass is the identity on this single line (see `Handler`). -/
def Handler.prettify (h : Handler) (skipUnchanged : Bool) : String × Handler :=
  let timeColor := if h.opts.lightBg then h.opts.timeLightBgColor else h.opts.timeDarkBgColor
  let out :=
    timeColor.sprint (h.time.goFormat h.opts.timeFormat) ++ " |" ++
    levelText h.opts h.level ++ "| " ++ prettifyMsg h ++ "\t " ++
    joinSep ("\t ") (joinKVs h skipUnchanged ("="))
  (out, h.clear)

/-! ## The dispatcher (`Scanner`, src/unnamed/part_000)

The generic-JSON and logfmt/logrus handlers live in repository files
that are not under `src/`; their acceptance decisions are modelled from
the spec below, and their rendering (which no claim depends on) is
abstracted to a fixed computable encoding. -/

/-- Modelled from the spec: the generic-JSON handler accepts any line
that parses as a JSON object (the dispatcher consults it only after the
Journal-JSON handler has rejected the line, so the marker-key exclusion
of the spec is enforced by the trial order). -/
def jsonTryHandle (d : String) : Bool :=
  match parseJson d with
  | some (JsonValue.obj _) => true
  | _ => false

/-- Split on spaces (token boundaries of the modelled logfmt grammar). -/
def splitSpace : List Char → List (List Char)
  | [] => [[]]
  | c :: rest =>
    let r := splitSpace rest
    if c = ' ' then [] :: r else (c :: r.headD []) :: r.tail

/-- One strict `key=value` token: non-empty key, an `=`, non-empty
value (a trailing bare `=` is the spec's example of a malformed token). -/
def strictTok (t : List Char) : Bool :=
  t.contains '=' && decide (t.takeWhile (· ≠ '=') ≠ []) &&
    decide ((t.dropWhile (· ≠ '=')).tail ≠ [])

/-- Modelled from the spec: the logfmt/logrus handler accepts only
strictly tokenized `key=value` lines carrying one of the conventional
level/message/time keys; any malformed token rejects the whole line. -/
def logrusAccepts (d : String) : Bool :=
  let toks := (splitSpace d.data).filter (· ≠ [])
  decide (toks ≠ []) && toks.all strictTok &&
    (strContains d ("level=") || strContains d ("msg=") || strContains d ("time="))

/-- Modelled from the spec: rendering of the generic-JSON handler
(code not under `src/`), abstracted to a fixed injective encoding; no
claim below depends on this text. -/
def jsonRender (d : String) (skipUnchanged : Bool) : String :=
  "json<" ++ d ++ "|" ++ (if skipUnchanged then "s" else "f") ++ ">"

/-- Modelled from the spec: rendering of the logfmt/logrus handler
(code not under `src/`), abstracted like `jsonRender`. -/
def logrusRender (d : String) (skipUnchanged : Bool) : String :=
  "logrus<" ++ d ++ "|" ++ (if skipUnchanged then "s" else "f") ++ ">"

/-- The per-stream state of `Scanner` (lines 22-30): the three
continuity flags and the Journal-JSON handler state (the other two
handlers being modelled stateless, their acceptance depending only on
the line). -/
structure ScanState where
  lastLogrus : Bool
  lastJSON : Bool
  lastJournalJSON : Bool
  journal : Handler
deriving DecidableEq, Repr

/-- The state `Scanner` starts a stream with (flags false, fresh handlers). -/
def initScan (o : HandlerOptions) : ScanState :=
  ⟨false, false, false, mkHandler o⟩

/-- One iteration of the `Scanner` loop (lines 32-60) on an
already-split line: strip the `"@cee: "` prefix, try the three handlers
in order, write the rendered text (or the line itself) and exactly one
newline, and update the continuity flags exactly as the source does —
the matching branch sets its own flag, only the default branch clears
them. -/
def processLine (opts : HandlerOptions) (s : ScanState) (line : List Char) : String × ScanState :=
  let lineData := String.mk (listTrimLead (("@cee: ").data) line)
  let t := s.journal.tryHandle lineData
  if t.2 then
    let pr := t.1.prettify (opts.skipUnchanged && s.lastJournalJSON)
    (pr.1 ++ "\n", { s with journal := pr.2, lastJournalJSON := true })
  else if jsonTryHandle lineData then
    (jsonRender lineData (opts.skipUnchanged && s.lastJSON) ++ "\n",
     { s with journal := t.1, lastJSON := true })
  else if logrusAccepts lineData then
    (logrusRender lineData (opts.skipUnchanged && s.lastLogrus) ++ "\n",
     { s with journal := t.1, lastLogrus := true })
  else
    (lineData ++ "\n",
     { s with journal := t.1, lastLogrus := false, lastJSON := false, lastJournalJSON := false })

/-- Raw split at newlines, keeping all (possibly empty) segments. -/
def splitNl : List Char → List (List Char)
  | [] => [[]]
  | c :: rest =>
    let r := splitNl rest
    if c = '\n' then [] :: r else (c :: r.headD []) :: r.tail

/-- Modelled from Go `bufio.ScanLines`: drop one carriage return before
the newline. -/
def dropCR (l : List Char) : List Char :=
  match l.reverse with
  | '\r' :: rest => rest.reverse
  | _ => l

/-- Modelled from Go `bufio.ScanLines` (the split function `Scanner`
installs): newline-terminated tokens without their terminator, a final
unterminated token included, a trailing `\r` stripped from each. -/
def scanLines (input : String) : List (List Char) :=
  let segs := splitNl input.data
  let segs := if segs.getLast? = some [] then segs.dropLast else segs
  segs.map dropCR

/-- The whole `Scanner` run on an in-memory stream: fold `processLine`
over the split lines, concatenating everything written to `dst`. -/
def runScanner (opts : HandlerOptions) (input : String) : String :=
  ((scanLines input).foldl
    (fun acc line =>
      let r := processLine opts acc.2 line
      (acc.1 ++ r.1, r.2))
    ("", initScan opts)).1

/-! ## Concrete instances and spec-side definitions used by the claims -/

/-- Options with a non-empty Keep set not mentioning the key `b`. -/
def c1opts : HandlerOptions :=
  { defaultOpts with keep := [("a")], skip := [("x")] }

/-- Spec wording (claim C5): the 4-letter code assigned to each raw
priority string. -/
def specLevelCode (p : String) : String :=
  if p = ("7") then ("DEBU")
  else if p = ("5") ∨ p = ("6") then ("INFO")
  else if p = ("4") then ("WARN")
  else if p = ("3") then ("ERRO")
  else if p = ("0") ∨ p = ("1") ∨ p = ("2") then ("FATA")
  else ("UNKN")

/-- Spec wording (claim C5): the role style attached to each severity. -/
def specLevelStyle (o : HandlerOptions) (p : String) : Color :=
  if p = ("7") then o.debugLevelColor
  else if p = ("5") ∨ p = ("6") then o.infoLevelColor
  else if p = ("4") then o.warnLevelColor
  else if p = ("3") then o.errorLevelColor
  else if p = ("0") ∨ p = ("1") ∨ p = ("2") then o.fatalLevelColor
  else o.unknownLevelColor

/-- Options whose configured message styles differ from hi-white in
both palettes. -/
def c8opts : HandlerOptions :=
  { defaultOpts with msgDarkBgColor := ⟨31⟩, msgLightBgColor := ⟨34⟩,
                     msgAbsentDarkBgColor := ⟨35⟩, msgAbsentLightBgColor := ⟨33⟩,
                     lightBg := false }

/-- A journal line decoding to one field `A = 1`. -/
def c2line1 : String :=
  "\x7b\"_SOURCE_REALTIME_TIMESTAMP\":\"1000000\",\"A\":1\x7d"

/-- A line containing the marker bytes that fails to decode: it is a
JSON string, not an object. -/
def c2bad : String := "\"_SOURCE_REALTIME_TIMESTAMP\""

/-- The top-level key list of a decoded JSON object, when the value is
one. -/
def topKeys : Option JsonValue → Option (List String)
  | some (JsonValue.obj l) => some (l.map (fun p => p.1))
  | _ => none

/-- A JSON object whose only member is `A` with the marker text (quotes
included in the serialized bytes) as its string value. -/
def c9line : String := "\x7b\"A\":\"_SOURCE_REALTIME_TIMESTAMP\"\x7d"

/-- A generic-JSON line (no journal marker). -/
def c3line1 : List Char := ("\x7b\"a\":1\x7d").data

/-- A journal line. -/
def c3line2 : List Char :=
  ("\x7b\"_SOURCE_REALTIME_TIMESTAMP\":\"1000000\"\x7d").data

/-- A concrete two-line situation for C4: field `a` changed, field `b`
unchanged. -/
def c4h : Handler :=
  { mkHandler defaultOpts with
    fields := [(("a"), ("2")), (("b"), ("1"))],
    last := [(("a"), ("1")), (("b"), ("1"))] }

/-- A handler with two fields listed in one order. -/
def c10h : Handler :=
  { mkHandler defaultOpts with fields := [(("b"), ("2")), (("a"), ("1"))] }

/-! ## Order and sorting facts

These lemmas about `listLexLe`/`strLe`/`insSort` support the
determinism and field-visibility claims. -/

theorem charToNat_inj {a b : Char} (h : a.toNat = b.toNat) : a = b :=
  Char.ext (UInt32.toNat.inj h)

theorem stringData_inj {a b : String} (h : a.data = b.data) : a = b := by
  cases a; cases b; simp_all

theorem listLexLe_total : ∀ a b : List Char, listLexLe a b = true ∨ listLexLe b a = true
  | [], _ => Or.inl rfl
  | _ :: _, [] => Or.inr rfl
  | a :: as, b :: bs => by
    rcases Nat.lt_trichotomy a.toNat b.toNat with h | h | h
    · left; simp [listLexLe, h]
    · have hab : a = b := charToNat_inj h
      subst hab
      rcases listLexLe_total as bs with ih | ih
      · left; simp [listLexLe, ih]
      · right; simp [listLexLe, ih]
    · right; simp [listLexLe, h]

theorem listLexLe_trans :
    ∀ a b c : List Char,
      listLexLe a b = true → listLexLe b c = true → listLexLe a c = true
  | [], _, _ => by intro _ _; rfl
  | _ :: _, [], _ => by intro h _; simp [listLexLe] at h
  | _ :: _, _ :: _, [] => by intro _ h; simp [listLexLe] at h
  | a :: as, b :: bs, c :: cs => by
    simp only [listLexLe, Bool.or_eq_true, Bool.and_eq_true, beq_iff_eq, decide_eq_true_eq]
    rintro (h1 | ⟨rfl, h1⟩) (h2 | ⟨rfl, h2⟩)
    · exact Or.inl (Nat.lt_trans h1 h2)
    · exact Or.inl h1
    · exact Or.inl h2
    · exact Or.inr ⟨rfl, listLexLe_trans as bs cs h1 h2⟩

theorem listLexLe_antisymm :
    ∀ a b : List Char, listLexLe a b = true → listLexLe b a = true → a = b
  | [], [] => by intro _ _; rfl
  | [], _ :: _ => by intro _ h; simp [listLexLe] at h
  | _ :: _, [] => by intro h _; simp [listLexLe] at h
  | a :: as, b :: bs => by
    simp only [listLexLe, Bool.or_eq_true, Bool.and_eq_true, beq_iff_eq, decide_eq_true_eq]
    rintro (h1 | ⟨rfl, h1⟩) (h2 | ⟨h2e, h2⟩)
    · exact absurd (Nat.lt_trans h1 h2) (Nat.lt_irrefl _)
    · subst h2e; exact absurd h1 (Nat.lt_irrefl _)
    · exact absurd h2 (Nat.lt_irrefl _)
    · exact congrArg (a :: ·) (listLexLe_antisymm as bs h1 h2)

theorem strLe_total (a b : String) : strLe a b = true ∨ strLe b a = true :=
  listLexLe_total a.data b.data

theorem strLe_trans {a b c : String} (h1 : strLe a b = true) (h2 : strLe b c = true) :
    strLe a c = true :=
  listLexLe_trans a.data b.data c.data h1 h2

theorem strLe_antisymm {a b : String} (h1 : strLe a b = true) (h2 : strLe b a = true) :
    a = b :=
  stringData_inj (listLexLe_antisymm a.data b.data h1 h2)

theorem insertLe_perm {α : Type} (le : α → α → Bool) (x : α) (l : List α) :
    (insertLe le x l).Perm (x :: l) := by
  induction l with
  | nil => simp [insertLe]
  | cons y ys ih =>
    by_cases h : le y x = true
    · simp only [insertLe, h, if_true]
      exact (ih.cons y).trans (List.Perm.swap x y ys)
    · simp [insertLe, h]

theorem insSort_aux_perm {α : Type} (le : α → α → Bool) (l : List α) :
    ∀ acc : List α, (l.foldl (fun a x => insertLe le x a) acc).Perm (acc ++ l) := by
  induction l with
  | nil => intro acc; simp
  | cons x xs ih =>
    intro acc
    simp only [List.foldl_cons]
    exact (ih (insertLe le x acc)).trans
      (((insertLe_perm le x acc).append_right xs).trans List.perm_middle.symm)

theorem insSort_perm {α : Type} (le : α → α → Bool) (l : List α) :
    (insSort le l).Perm l := by
  simpa [insSort] using insSort_aux_perm le l []

theorem mem_insSort {α : Type} (le : α → α → Bool) {x : α} {l : List α} :
    x ∈ insSort le l ↔ x ∈ l :=
  (insSort_perm le l).mem_iff

theorem insertLe_pairwise {α : Type} (le : α → α → Bool)
    (htr : ∀ a b c, le a b = true → le b c = true → le a c = true)
    (hto : ∀ a b, le a b = true ∨ le b a = true)
    (x : α) (l : List α) (hl : l.Pairwise (fun a b => le a b = true)) :
    (insertLe le x l).Pairwise (fun a b => le a b = true) := by
  induction l with
  | nil => simp [insertLe]
  | cons y ys ih =>
    rcases List.pairwise_cons.mp hl with ⟨hy, hys⟩
    by_cases h : le y x = true
    · simp only [insertLe, h, if_true]
      refine List.pairwise_cons.mpr ⟨?_, ih hys⟩
      intro z hz
      rcases List.mem_cons.mp ((insertLe_perm le x ys).mem_iff.mp hz) with rfl | hz
      · exact h
      · exact hy z hz
    · simp only [insertLe, h, if_false]
      refine List.pairwise_cons.mpr ⟨?_, hl⟩
      intro z hz
      have hxy : le x y = true := (hto x y).resolve_right (by simpa using h)
      rcases List.mem_cons.mp hz with rfl | hz
      · exact hxy
      · exact htr x y z hxy (hy z hz)

theorem insSort_aux_pairwise {α : Type} (le : α → α → Bool)
    (htr : ∀ a b c, le a b = true → le b c = true → le a c = true)
    (hto : ∀ a b, le a b = true ∨ le b a = true) (l : List α) :
    ∀ acc : List α, acc.Pairwise (fun a b => le a b = true) →
      (l.foldl (fun a x => insertLe le x a) acc).Pairwise (fun a b => le a b = true) := by
  induction l with
  | nil => intro acc h; simpa using h
  | cons x xs ih =>
    intro acc h
    simp only [List.foldl_cons]
    exact ih (insertLe le x acc) (insertLe_pairwise le htr hto x acc h)

theorem insSort_pairwise {α : Type} (le : α → α → Bool)
    (htr : ∀ a b c, le a b = true → le b c = true → le a c = true)
    (hto : ∀ a b, le a b = true ∨ le b a = true) (l : List α) :
    (insSort le l).Pairwise (fun a b => le a b = true) :=
  insSort_aux_pairwise le htr hto l [] (List.Pairwise.nil)

theorem sorted_perm_eq {α : Type} (le : α → α → Bool)
    (han : ∀ a b, le a b = true → le b a = true → a = b)
    {l₁ l₂ : List α} (hp : l₁.Perm l₂)
    (h₁ : l₁.Pairwise (fun a b => le a b = true))
    (h₂ : l₂.Pairwise (fun a b => le a b = true)) : l₁ = l₂ := by
  haveI : IsAntisymm α (fun a b => le a b = true) := ⟨han⟩
  exact List.eq_of_perm_of_sorted hp h₁ h₂

theorem insSort_congr_perm {α : Type} (le : α → α → Bool)
    (htr : ∀ a b c, le a b = true → le b c = true → le a c = true)
    (hto : ∀ a b, le a b = true ∨ le b a = true)
    (han : ∀ a b, le a b = true → le b a = true → a = b)
    {l₁ l₂ : List α} (hp : l₁.Perm l₂) : insSort le l₁ = insSort le l₂ :=
  sorted_perm_eq le han
    ((insSort_perm le l₁).trans (hp.trans (insSort_perm le l₂).symm))
    (insSort_pairwise le htr hto l₁) (insSort_pairwise le htr hto l₂)

/-! ## Claim C1 — Keep as an allow-list -/

theorem contains_length_ne_zero {l : List String} {a : String} (h : l.contains a = true) :
    l.length ≠ 0 := by
  cases l with
  | nil => simp at h
  | cons x xs => simp

/-- C1 is false on the code: with Keep non-empty and the key `b` (exact
and lowercase) absent from it, `shouldShowKey` still returns true and
the field is rendered — absence from a non-empty Keep does not hide a
field. -/
theorem c1_counterexample :
    c1opts.keep ≠ [] ∧
    c1opts.keep.contains ("b") = false ∧
    c1opts.keep.contains (asciiLower ("b")) = false ∧
    shouldShowKey c1opts ("b") = true ∧
    joinKVs { mkHandler c1opts with fields := [(("b"), ("2"))] } false ("=") =
      [(Color.mk 32).sprint ("b") ++ ("=") ++ (Color.mk 36).sprint ("2")] := by
  refine ⟨by decide, by decide, by decide, by decide, by decide⟩

/-- C1 (amended): when Keep is non-empty and contains neither the key
nor its lowercase form, the Keep set has no effect at all — the field is
shown unless the Skip set matches the key or its lowercase form, or the
key starts with an underscore.  Keep only force-shows; its misses hide
nothing. -/
theorem c1_keep_only_forces_show (o : HandlerOptions) (k : String)
    (h1 : o.keep.contains k = false)
    (h2 : o.keep.contains (asciiLower k) = false) :
    shouldShowKey o k =
      ((!o.skip.contains k && !o.skip.contains (asciiLower k)) && !strLeadsWith k ("_")) := by
  have h1' : ¬ (o.keep.contains k = true) := fun hc => by rw [h1] at hc; cases hc
  have h2' : ¬ (o.keep.contains (asciiLower k) = true) := fun hc => by rw [h2] at hc; cases hc
  unfold shouldShowKey
  rw [if_neg (fun hc => hc.2.elim h1' h2')]
  by_cases hs1 : o.skip.contains k = true
  · rw [if_pos ⟨contains_length_ne_zero hs1, Or.inl hs1⟩, hs1]
    simp
  · by_cases hs2 : o.skip.contains (asciiLower k) = true
    · rw [if_pos ⟨contains_length_ne_zero hs2, Or.inr hs2⟩, hs2]
      simp
    · rw [if_neg (fun hc => hc.2.elim hs1 hs2),
          Bool.eq_false_iff.mpr hs1, Bool.eq_false_iff.mpr hs2]
      by_cases hu : strLeadsWith k ("_") = true
      · rw [if_pos hu, hu]
        simp
      · rw [if_neg hu, Bool.eq_false_iff.mpr hu]
        simp

/-- Witness for C1's amended theorem at a concrete option set and key. -/
theorem c1_witness :
    shouldShowKey c1opts ("b") =
      ((!c1opts.skip.contains ("b") && !c1opts.skip.contains (asciiLower ("b"))) &&
       !strLeadsWith ("b") ("_")) :=
  c1_keep_only_forces_show c1opts ("b") (by decide) (by decide)

/-! ## Claim C5 — severity mapping -/

/-- C5: the severity column rendered by `Prettify` is exactly the
spec's mapping of the raw priority string — `7` to DEBU, `5`/`6` to
INFO, `4` to WARN, `3` to ERRO, `0`/`1`/`2` to FATA, anything else
(including the empty string left by an absent priority) to UNKN — in
the matching role style, and the rendered line contains it between the
time and message columns. -/
theorem c5_severity_mapping :
    (∀ (o : HandlerOptions) (lvl : String),
      levelText o lvl = (specLevelStyle o lvl).sprint (specLevelCode lvl)) ∧
    (∀ (h : Handler) (sk : Bool), ∃ pre post,
      (h.prettify sk).1 = pre ++ levelText h.opts h.level ++ post) := by
  constructor
  · intro o lvl
    unfold levelText specLevelCode specLevelStyle
    split_ifs <;> first | rfl | tauto
  · intro h sk
    refine ⟨(if h.opts.lightBg then h.opts.timeLightBgColor else h.opts.timeDarkBgColor).sprint
        (h.time.goFormat h.opts.timeFormat) ++ (" |"),
      ("| ") ++ prettifyMsg h ++ ("\t ") ++ joinSep ("\t ") (joinKVs h sk ("=")), ?_⟩
    simp [Handler.prettify, String.append_assoc]

/-! ## Claim C8 — message styles and the LightBackground option -/

/-- C8 is false on the code: with LightBackground off and a red
dark-background message style configured, the message still renders in
the hard-coded hi-white style, not the configured one. -/
theorem c8_counterexample :
    c8opts.lightBg = false ∧
    c8opts.msgDarkBgColor = Color.mk 31 ∧
    prettifyMsg { mkHandler c8opts with message := ("hi") } = fgHiWhite.sprint ("hi") ∧
    fgHiWhite.sprint ("hi") ≠ (Color.mk 31).sprint ("hi") := by
  refine ⟨by decide, by decide, by decide, by decide⟩

/-- C8 (amended): `Prettify` computes the LightBackground-selected
message and message-absent styles but then unconditionally overwrites
both with `FgHiWhite` (lines 131-132), so those two roles always render
hi-white regardless of the option; the time role, by contrast, does
follow LightBackground. -/
theorem c8_msg_style_fixed :
    (∀ o : HandlerOptions, prettifyMsgColor o = fgHiWhite ∧ prettifyMsgAbsentColor o = fgHiWhite) ∧
    (∀ h : Handler, prettifyMsg h =
      (if h.message = ("") then fgHiWhite.sprint ("<no msg>") else fgHiWhite.sprint h.message)) ∧
    (∀ (h : Handler) (sk : Bool), ∃ rest,
      (h.prettify sk).1 =
        (if h.opts.lightBg then h.opts.timeLightBgColor else h.opts.timeDarkBgColor).sprint
          (h.time.goFormat h.opts.timeFormat) ++ rest) := by
  refine ⟨fun o => ⟨rfl, rfl⟩, fun h => rfl, fun h sk => ?_⟩
  refine ⟨(" |") ++ levelText h.opts h.level ++ ("| ") ++ prettifyMsg h ++ ("\t ") ++
    joinSep ("\t ") (joinKVs h sk ("=")), ?_⟩
  simp [Handler.prettify, String.append_assoc]

/-! ## Claim C2 — at most one live entry, snapshot discipline -/

/-- C2 is false on the code: after a successful render leaves the
snapshot `[(A, 1)]` and empty Fields, a `TryHandle` that passes the
marker check but fails the decode returns false AND replaces the
snapshot with the (empty) current Fields, because the failure path
calls `clear` — a false-returning `TryHandle` does modify the last
snapshot. -/
theorem c2_counterexample :
    ((((mkHandler defaultOpts).tryHandle c2line1).1.prettify false).2.last
      = [(("A"), ("1"))]) ∧
    (((((mkHandler defaultOpts).tryHandle c2line1).1.prettify false).2.tryHandle c2bad).2
      = false) ∧
    (((((mkHandler defaultOpts).tryHandle c2line1).1.prettify false).2.tryHandle c2bad).1.last
      = []) := by
  refine ⟨by decide, by decide, by decide⟩

/-- C2 (amended): the snapshot is replaced exactly by `clear`, which
runs after every render and also after every decode-failing
`TryHandle` (which therefore overwrites `last` with the current Fields
— empty right after a render); only a `TryHandle` that fails the
marker-substring check leaves the handler untouched.  Decode failures
never leak partial entry state: the failing `TryHandle` returns
exactly `clear` of the unchanged pre-state. -/
theorem c2_clear_discipline (h : Handler) (d : String) :
    (strContains d journalMarker = false → h.tryHandle d = (h, false)) ∧
    (strContains d journalMarker = true → unmarshalJournalJSON h d = none →
      h.tryHandle d = (h.clear, false)) ∧
    (∀ sk : Bool, (h.prettify sk).2.last = h.fields ∧ (h.prettify sk).2.fields = []) := by
  refine ⟨?_, ?_, fun sk => ⟨rfl, rfl⟩⟩
  · intro hc
    simp [Handler.tryHandle, hc]
  · intro hc hu
    simp [Handler.tryHandle, hc, hu]

/-- Witness for C2's amended theorem: a marker-less line is a no-op,
and the decode-failing line returns the cleared pre-state. -/
theorem c2_witness :
    ((mkHandler defaultOpts).tryHandle ("plain") = (mkHandler defaultOpts, false)) ∧
    ((mkHandler defaultOpts).tryHandle c2bad = ((mkHandler defaultOpts).clear, false)) :=
  ⟨(c2_clear_discipline (mkHandler defaultOpts) ("plain")).1 (by decide),
   (c2_clear_discipline (mkHandler defaultOpts) c2bad).2.1 (by decide) (by decide)⟩

/-! ## Claim C9 — acceptance by substring, zero time -/

/-- C9: `TryHandle` accepts a line whose JSON object has no top-level
`_SOURCE_REALTIME_TIMESTAMP` key — the marker bytes merely occur inside
a string value — and the entry's Time stays the zero value. -/
theorem c9_acceptance_substring :
    strContains c9line journalMarker = true ∧
    topKeys (parseJson c9line) = some [("A")] ∧
    (("A") ≠ ("_SOURCE_REALTIME_TIMESTAMP")) ∧
    ((mkHandler defaultOpts).tryHandle c9line).2 = true ∧
    ((mkHandler defaultOpts).tryHandle c9line).1.time = GoTime.zero := by
  refine ⟨by decide, by rfl, by decide, by decide, by decide⟩

/-! ## Claim C3 — continuity flags -/

/-- C3 is false on the code: after a generic-JSON line followed by a
Journal-JSON line, both `lastJSON` and `lastJournalJSON` are true — a
successful render does not clear the other handlers' continuity flags
(only the pass-through branch does), so more than one flag can be true
after a line.  (The generic-JSON handler's acceptance is modelled from
the spec; the flag updates under test are the dispatcher's own code.) -/
theorem c3_counterexample :
    ((processLine defaultOpts (initScan defaultOpts) c3line1).2.lastJSON = true) ∧
    ((processLine defaultOpts
        (processLine defaultOpts (initScan defaultOpts) c3line1).2 c3line2).2.lastJournalJSON
      = true) ∧
    ((processLine defaultOpts
        (processLine defaultOpts (initScan defaultOpts) c3line1).2 c3line2).2.lastJSON
      = true) := by
  refine ⟨by decide, by decide, by decide⟩

/-- C3 (amended): each successful branch of the dispatcher sets its own
continuity flag and leaves the other two unchanged; only the
pass-through branch clears all three.  Consequently several flags can
be true at once. -/
theorem c3_flags_not_cleared (opts : HandlerOptions) (s : ScanState) (line : List Char) :
    ((s.journal.tryHandle (String.mk (listTrimLead (("@cee: ").data) line))).2 = true →
      ((processLine opts s line).2.lastJournalJSON = true ∧
       (processLine opts s line).2.lastJSON = s.lastJSON ∧
       (processLine opts s line).2.lastLogrus = s.lastLogrus)) ∧
    ((s.journal.tryHandle (String.mk (listTrimLead (("@cee: ").data) line))).2 = false →
      jsonTryHandle (String.mk (listTrimLead (("@cee: ").data) line)) = true →
      ((processLine opts s line).2.lastJSON = true ∧
       (processLine opts s line).2.lastJournalJSON = s.lastJournalJSON ∧
       (processLine opts s line).2.lastLogrus = s.lastLogrus)) ∧
    ((s.journal.tryHandle (String.mk (listTrimLead (("@cee: ").data) line))).2 = false →
      jsonTryHandle (String.mk (listTrimLead (("@cee: ").data) line)) = false →
      logrusAccepts (String.mk (listTrimLead (("@cee: ").data) line)) = true →
      ((processLine opts s line).2.lastLogrus = true ∧
       (processLine opts s line).2.lastJournalJSON = s.lastJournalJSON ∧
       (processLine opts s line).2.lastJSON = s.lastJSON)) ∧
    ((s.journal.tryHandle (String.mk (listTrimLead (("@cee: ").data) line))).2 = false →
      jsonTryHandle (String.mk (listTrimLead (("@cee: ").data) line)) = false →
      logrusAccepts (String.mk (listTrimLead (("@cee: ").data) line)) = false →
      ((processLine opts s line).2.lastJournalJSON = false ∧
       (processLine opts s line).2.lastJSON = false ∧
       (processLine opts s line).2.lastLogrus = false)) := by
  refine ⟨?_, ?_, ?_, ?_⟩
  · intro h1
    simp [processLine, h1]
  · intro h1 h2
    simp [processLine, h1, h2]
  · intro h1 h2 h3
    simp [processLine, h1, h2, h3]
  · intro h1 h2 h3
    simp [processLine, h1, h2, h3]

/-- Witness for C3's amended theorem: a journal line arriving while
`lastJSON` is already true sets `lastJournalJSON` and leaves `lastJSON`
true. -/
theorem c3_witness :
    (processLine defaultOpts { initScan defaultOpts with lastJSON := true }
        c3line2).2.lastJournalJSON = true ∧
    (processLine defaultOpts { initScan defaultOpts with lastJSON := true }
        c3line2).2.lastJSON = ({ initScan defaultOpts with lastJSON := true } : ScanState).lastJSON ∧
    (processLine defaultOpts { initScan defaultOpts with lastJSON := true }
        c3line2).2.lastLogrus = ({ initScan defaultOpts with lastJSON := true } : ScanState).lastLogrus :=
  (c3_flags_not_cleared defaultOpts { initScan defaultOpts with lastJSON := true } c3line2).1
    (by decide)

/-! ## Claim C7 — pass-through bytes and the single newline -/

theorem splitNl_no_nl {xs : List Char} (h : '\n' ∉ xs) : splitNl xs = [xs] := by
  induction xs with
  | nil => rfl
  | cons c cs ih =>
    have hc : ¬ (c = '\n') := fun e => h (e ▸ List.mem_cons_self c cs)
    have hcs : '\n' ∉ cs := fun m => h (List.mem_cons_of_mem c m)
    simp [splitNl, ih hcs, hc]

theorem splitNl_append_nl {xs : List Char} (h : '\n' ∉ xs) :
    splitNl (xs ++ ['\n']) = [xs, []] := by
  induction xs with
  | nil => rfl
  | cons c cs ih =>
    have hc : ¬ (c = '\n') := fun e => h (e ▸ List.mem_cons_self c cs)
    have hcs : '\n' ∉ cs := fun m => h (List.mem_cons_of_mem c m)
    simp [splitNl, ih hcs, hc]

/-- Adding the final newline terminator does not change the split
lines of a single-line input. -/
theorem scanLines_terminator (x : String) (hne : x.data ≠ []) (h : '\n' ∉ x.data) :
    scanLines (x ++ ("\n")) = scanLines x := by
  have hdata : (x ++ ("\n")).data = x.data ++ ['\n'] := rfl
  unfold scanLines
  rw [hdata, splitNl_append_nl h, splitNl_no_nl h]
  simp [List.getLast?, hne]

/-- C7 (amended): a line rejected by all three handlers is written as
its bytes after the `"@cee: "` prefix strip (the line splitter has
already removed the terminator, including a trailing CR), plus exactly
one newline; every branch of the dispatcher appends exactly one newline
to what it writes; and the presence of the final LF terminator does not
change how the stream is split into lines. -/
theorem c7_passthrough (opts : HandlerOptions) (s : ScanState) (line : List Char)
    (h1 : (s.journal.tryHandle (String.mk (listTrimLead (("@cee: ").data) line))).2 = false)
    (h2 : jsonTryHandle (String.mk (listTrimLead (("@cee: ").data) line)) = false)
    (h3 : logrusAccepts (String.mk (listTrimLead (("@cee: ").data) line)) = false) :
    ((processLine opts s line).1
      = String.mk (listTrimLead (("@cee: ").data) line) ++ ("\n")) ∧
    (∀ (s' : ScanState) (l' : List Char), ∃ content,
      (processLine opts s' l').1 = content ++ ("\n")) ∧
    (∀ x : String, x.data ≠ [] → '\n' ∉ x.data →
      scanLines (x ++ ("\n")) = scanLines x) := by
  refine ⟨?_, ?_, fun x hne h => scanLines_terminator x hne h⟩
  · simp [processLine, h1, h2, h3]
  · intro s' l'
    simp only [processLine]
    split
    · exact ⟨_, rfl⟩
    · split
      · exact ⟨_, rfl⟩
      · split
        · exact ⟨_, rfl⟩
        · exact ⟨_, rfl⟩

/-- C7 is false as stated: a pass-through line carrying the noise
prefix is not echoed byte-for-byte — the prefix is stripped before
writing. -/
theorem c7_counterexample :
    (processLine defaultOpts (initScan defaultOpts) (("@cee: hello").data)).1 = ("hello\n") ∧
    (("hello\n") ≠ ("@cee: hello") ++ ("\n")) := by
  refine ⟨by decide, by decide⟩

/-- Witness for C7's amended theorem at a concrete rejected line. -/
theorem c7_witness :
    (processLine defaultOpts (initScan defaultOpts) (("plain text").data)).1
      = String.mk (listTrimLead (("@cee: ").data) (("plain text").data)) ++ ("\n") :=
  (c7_passthrough defaultOpts (initScan defaultOpts) (("plain text").data)
    (by decide) (by decide) (by decide)).1

/-! ## Claim C4 — skip-unchanged filtering -/

theorem mem_of_mapGet {α : Type} {m : List (String × α)} {k : String} {v : α}
    (h : mapGet m k = some v) : (k, v) ∈ m := by
  unfold mapGet at h
  cases hf : m.find? (fun p => p.1 == k) with
  | none => rw [hf] at h; cases h
  | some q =>
    rw [hf] at h
    have hq : q.1 = k := by
      have := List.find?_some hf
      simpa using this
    have hv : q.2 = v := by simpa using h
    have : q ∈ m := List.mem_of_find?_eq_some hf
    have hqe : q = (k, v) := by
      cases q; simp_all
    rw [hqe] at this
    exact this

theorem mapGet_of_mem_nodup {α : Type} {m : List (String × α)} {p : String × α}
    (hn : (m.map Prod.fst).Nodup) (hp : p ∈ m) : mapGet m p.1 = some p.2 := by
  induction m with
  | nil => cases hp
  | cons q rest ih =>
    have hn' : q.1 ∉ rest.map Prod.fst ∧ (rest.map Prod.fst).Nodup := by
      rw [List.map_cons, List.nodup_cons] at hn
      exact hn
    rcases List.mem_cons.mp hp with rfl | hp
    · unfold mapGet
      simp [List.find?]
    · have hq1 : q.1 ≠ p.1 := fun he => hn'.1 (he ▸ List.mem_map_of_mem Prod.fst hp)
      have hqp : (q.1 == p.1) = false := by simpa using hq1
      unfold mapGet at *
      simp only [List.find?, hqp]
      exact ih hn'.2 hp

theorem shouldShowUnchanged_false (o : HandlerOptions) (k : String)
    (hk : o.keep = [] ∨
      (o.keep.contains k = false ∧ o.keep.contains (asciiLower k) = false)) :
    shouldShowUnchanged o k = false := by
  unfold shouldShowUnchanged
  rcases hk with hk | ⟨h1, h2⟩
  · simp [hk]
  · rw [if_neg (fun hc => by rw [h1] at hc; exact (by cases hc.2 : False)),
        if_neg (fun hc => by rw [h2] at hc; exact (by cases hc.2 : False))]

/-- Membership in `joinKVs` is membership in the rendered visible
pairs: the two sort passes neither add nor drop elements. -/
theorem mem_joinKVs_iff {h : Handler} {sk : Bool} {sep s : String} :
    s ∈ joinKVs h sk sep ↔ s ∈ (visiblePairs h sk).map (renderKV h.opts sep) := by
  unfold joinKVs
  by_cases hsl : h.opts.sortLongest
  · rw [if_pos hsl]
    rw [mem_insSort, mem_insSort]
  · rw [if_neg hsl]
    rw [mem_insSort]

/-- C4 is false as stated: a hidden-by-default (underscored) field
whose value differs from the previous snapshot still does not appear —
the rendered output of the second line is empty. -/
theorem c4_counterexample :
    mapGet ({ mkHandler defaultOpts with
        fields := [(("_a"), ("2"))], last := [(("_a"), ("1"))] } : Handler).fields ("_a")
      = some ("2") ∧
    mapGet ({ mkHandler defaultOpts with
        fields := [(("_a"), ("2"))], last := [(("_a"), ("1"))] } : Handler).last ("_a")
      = some ("1") ∧
    (("1") : String) ≠ ("2") ∧
    defaultOpts.keep = [] ∧
    joinKVs ({ mkHandler defaultOpts with
        fields := [(("_a"), ("2"))], last := [(("_a"), ("1"))] } : Handler) true ("=")
      = [] := by
  refine ⟨by decide, by decide, by decide, by decide, by decide⟩

/-- C4 (amended): under `skipUnchanged`, a field whose value is
unchanged from the snapshot and whose exact/lowercase name is not in a
non-empty Keep set is absent from the rendered pairs; and a field whose
snapshot value differs does appear — provided it passes the visibility
filter (`shouldShowKey`): Keep/Skip/underscore hiding still applies to
changed fields. -/
theorem c4_skip_unchanged (h : Handler) (k v sep : String)
    (hnd : (h.fields.map Prod.fst).Nodup)
    (hcur : mapGet h.fields k = some v) :
    ((mapGet h.last k = some v →
      (h.opts.keep = [] ∨
        (h.opts.keep.contains k = false ∧ h.opts.keep.contains (asciiLower k) = false)) →
      (∀ p ∈ visiblePairs h true, p.1 ≠ k) ∧
      (∀ s ∈ joinKVs h true sep, ∃ p, p ∈ visiblePairs h true ∧ p.1 ≠ k ∧
        s = renderKV h.opts sep p)) ∧
     (∀ v', mapGet h.last k = some v' → v' ≠ v →
      shouldShowKey h.opts k = true →
      (k, v) ∈ visiblePairs h true ∧
      renderKV h.opts sep (k, v) ∈ joinKVs h true sep)) := by
  constructor
  · intro hlast hkeep
    have hssu : shouldShowUnchanged h.opts k = false := shouldShowUnchanged_false h.opts k hkeep
    have habs : ∀ p ∈ visiblePairs h true, p.1 ≠ k := by
      intro p hp heq
      rcases List.mem_filter.mp hp with ⟨hpf, hpred⟩
      have hv : p.2 = v := by
        have := mapGet_of_mem_nodup hnd hpf
        rw [heq, hcur] at this
        simpa using this.symm
      rw [heq] at hpred
      simp [hlast, hv, hssu] at hpred
    refine ⟨habs, ?_⟩
    intro s hs
    rcases List.mem_map.mp (mem_joinKVs_iff.mp hs) with ⟨p, hpv, hps⟩
    exact ⟨p, hpv, habs p hpv, hps.symm⟩
  · intro v' hlast hne hssk
    have hmemf : (k, v) ∈ h.fields := mem_of_mapGet hcur
    have hpred : (k, v) ∈ visiblePairs h true := by
      refine List.mem_filter.mpr ⟨hmemf, ?_⟩
      have hbeq : (some v' == some v) = false := by simpa using hne
      simp [hssk, hlast, hbeq]
    exact ⟨hpred, mem_joinKVs_iff.mpr (List.mem_map_of_mem (renderKV h.opts sep) hpred)⟩

/-- Witness for C4's amended theorem: the changed visible field `a`
appears; the unchanged field `b` is absent. -/
theorem c4_witness :
    ((("a"), ("2")) ∈ visiblePairs c4h true ∧
      renderKV c4h.opts ("=") (("a"), ("2")) ∈ joinKVs c4h true ("=")) ∧
    (∀ p ∈ visiblePairs c4h true, p.1 ≠ ("b")) :=
  ⟨(c4_skip_unchanged c4h ("a") ("2") ("=") (by decide) (by decide)).2
      ("1") (by decide) (by decide) (by decide),
   ((c4_skip_unchanged c4h ("b") ("1") ("=") (by decide) (by decide)).1
      (by decide) (Or.inl (by decide))).1⟩

/-! ## Claim C10 — rendered output independent of map iteration order -/

/-- The rendered key=value section is invariant under permutations of
the field list — Go's randomized map iteration order cannot change
`joinKVs`. -/
theorem joinKVs_fields_perm (h : Handler) (f2 : List (String × String))
    (hp : h.fields.Perm f2) (sk : Bool) (sep : String) :
    joinKVs h sk sep = joinKVs { h with fields := f2 } sk sep := by
  have hmap : (((visiblePairs h sk).map (renderKV h.opts sep))).Perm
      ((visiblePairs { h with fields := f2 } sk).map (renderKV h.opts sep)) :=
    (hp.filter _).map _
  have hsort : insSort strLe ((visiblePairs h sk).map (renderKV h.opts sep)) =
      insSort strLe ((visiblePairs { h with fields := f2 } sk).map (renderKV h.opts sep)) :=
    insSort_congr_perm strLe (fun _ _ _ hab hbc => strLe_trans hab hbc) strLe_total
      (fun _ _ hab hba => strLe_antisymm hab hba) hmap
  simp only [joinKVs]
  rw [hsort]

/-- C10: with everything but the field-list order fixed, `Prettify`
produces identical output bytes — the lexicographic sort (and the
stable by-length pass) erases the unordered map's iteration order. -/
theorem c10_render_deterministic (h : Handler) (f2 : List (String × String))
    (hp : h.fields.Perm f2) (sk : Bool) :
    (h.prettify sk).1 = (({ h with fields := f2 } : Handler).prettify sk).1 := by
  simp only [Handler.prettify]
  rw [joinKVs_fields_perm h f2 hp sk ("=")]
  rfl

/-- Witness for C10 at a concrete two-field state and its swapped
enumeration. -/
theorem c10_witness :
    (c10h.prettify false).1 =
      (({ c10h with fields := [(("a"), ("1")), (("b"), ("2"))] } : Handler).prettify false).1 :=
  c10_render_deterministic c10h [(("a"), ("1")), (("b"), ("2"))]
    (List.Perm.swap (("a"), ("1")) (("b"), ("2")) []) false

/-! ## Claim C6 — integer-vs-decimal rendering of float fields -/

theorem strData_append (a b : String) : (a ++ b).data = a.data ++ b.data := rfl

theorem natDigitsL_eq_digits : ∀ (f n : Nat), n ≤ f → natDigitsL f n = Nat.digits 10 n
  | 0, 0, _ => by simp [natDigitsL]
  | 0, _ + 1, h => by omega
  | f + 1, 0, _ => by simp [natDigitsL]
  | f + 1, n + 1, h => by
    rw [show natDigitsL (f + 1) (n + 1) = ((n + 1) % 10) :: natDigitsL f ((n + 1) / 10) from rfl,
        Nat.digits_def' (by norm_num : (1:Nat) < 10) (Nat.succ_pos n)]
    congr 1
    exact natDigitsL_eq_digits f ((n + 1) / 10) (by omega)

theorem digitChar_ok {d : Nat} (hd : d < 10) :
    ((digitChar d).isDigit || digitChar d == '-') = true := by
  interval_cases d <;> decide

theorem natStr_intForm (n : Nat) : isIntForm (natStr n) = true := by
  unfold natStr isIntForm
  by_cases h0 : n = 0
  · rw [if_pos h0]; decide
  · rw [if_neg h0, natDigitsL_eq_digits (n + 1) n (Nat.le_succ n), Bool.and_eq_true]
    refine ⟨?_, ?_⟩
    · have hne : Nat.digits 10 n ≠ [] := Nat.digits_ne_nil_iff_ne_zero.mpr h0
      simp [List.map_eq_nil_iff, List.reverse_eq_nil_iff, hne]
    · rw [List.all_eq_true]
      intro c hc
      rcases List.mem_map.mp (by simpa using hc) with ⟨d, hd, rfl⟩
      exact digitChar_ok (Nat.digits_lt_base (by norm_num) hd)

theorem isIntForm_intStr (i : Int) : isIntForm (intStr i) = true := by
  cases i with
  | ofNat n => exact natStr_intForm n
  | negSucc n =>
    have h := natStr_intForm (n + 1)
    unfold isIntForm at h ⊢
    rw [Bool.and_eq_true] at h ⊢
    refine ⟨?_, ?_⟩
    · show decide ((("-" : String) ++ natStr (n + 1)).data ≠ []) = true
      rw [strData_append]
      simp
    · show ((("-" : String) ++ natStr (n + 1)).data.all _) = true
      rw [strData_append, List.all_append, Bool.and_eq_true]
      exact ⟨by decide, h.2⟩

/-- The executable guard of `stringifyValue` agrees with the spec-level
condition: fractional part below `1e-6` and the (signed) value below
`1e9`. -/
theorem looksLikeInt_iff (v : ℚ) :
    looksLikeInt v = true ↔ (v - ⌊v⌋ < 1/1000000 ∧ v < 1000000000) := by
  have hdpos : (0:ℚ) < (v.den : ℚ) := by exact_mod_cast v.den_pos
  have hnd : ((v.num : ℚ)) / ((v.den : ℚ)) = v := Rat.num_div_den v
  unfold looksLikeInt
  rw [Bool.and_eq_true, decide_eq_true_eq, decide_eq_true_eq]
  have hvd : v * (v.den:ℚ) = (v.num:ℚ) := by
    have h := hnd
    rw [div_eq_iff hdpos.ne'] at h
    exact h.symm
  have h1 : ((v.num - v.num / (v.den:Int) * (v.den:Int)) * 1000000 < (v.den:Int)) ↔
      (v - ⌊v⌋ < 1/1000000) := by
    rw [Rat.floor_def]
    have hv : v - ((v.num / (v.den:Int) : Int):ℚ) =
        ((v.num - v.num / (v.den:Int) * (v.den:Int) : Int) : ℚ) / (v.den : ℚ) := by
      rw [eq_div_iff hdpos.ne']
      push_cast
      linear_combination hvd
    rw [hv, div_lt_div_iff hdpos (by norm_num : (0:ℚ) < 1000000), one_mul]
    constructor <;> intro h <;> exact_mod_cast h
  have h2 : (v.num < 1000000000 * (v.den:Int)) ↔ (v < 1000000000) := by
    constructor
    · intro h
      rw [← hnd]
      exact (div_lt_iff hdpos).mpr (by exact_mod_cast h)
    · intro h
      have := (div_lt_iff hdpos).mp (by rw [hnd]; exact h)
      exact_mod_cast this
  exact and_congr h1 h2

theorem isIntForm_false_of_mem {s : String} {c : Char} (hc : c ∈ s.data)
    (h1 : c.isDigit = false) (h2 : (c == '-') = false) : isIntForm s = false := by
  unfold isIntForm
  have hall : s.data.all (fun c => c.isDigit || c == '-') = false :=
    List.all_eq_false.mpr ⟨c, hc, by simp [h1, h2]⟩
  rw [hall, Bool.and_false]

theorem formatGCore_none_not_int (sign : String) :
    isIntForm (formatGCore sign none) = false := by
  apply isIntForm_false_of_mem (c := '?')
  · show '?' ∈ (sign ++ ("?")).data
    rw [strData_append]
    simp
  · decide
  · decide

theorem fmtE_not_int (sign : String) (sig : List Char) (e : Int) :
    isIntForm (fmtE sign sig e) = false := by
  apply isIntForm_false_of_mem (c := 'e')
  · show 'e' ∈ _
    simp only [fmtE, strData_append, List.mem_append]
    left; right
    decide
  · decide
  · decide

theorem fmtF_dot_not_int_pos (sign : String) (sig : List Char) (e : Int)
    (h0 : 0 ≤ e) (hlen : ¬ sig.length ≤ e.toNat + 1) :
    isIntForm (fmtF sign sig e) = false := by
  unfold fmtF
  rw [if_pos h0, if_neg hlen]
  apply isIntForm_false_of_mem (c := '.')
  · show '.' ∈ _
    simp only [strData_append, List.mem_append]
    left; right
    simp
  · decide
  · decide

theorem fmtF_neg_not_int (sign : String) (sig : List Char) (e : Int) (h0 : ¬ 0 ≤ e) :
    isIntForm (fmtF sign sig e) = false := by
  unfold fmtF
  rw [if_neg h0]
  apply isIntForm_false_of_mem (c := '.')
  · show '.' ∈ _
    simp only [strData_append, List.mem_append]
    left; left; right
    decide
  · decide
  · decide

theorem decExpand_some {v : ℚ} {n k : Nat} (h : decExpand v = some (n, k)) :
    v.num.natAbs * 10 ^ k = n * v.den := by
  unfold decExpand at h
  cases hf : (List.range 1100).find? (fun k => (v.num.natAbs * 10 ^ k) % v.den = 0) with
  | none => rw [hf] at h; cases h
  | some k0 =>
    rw [hf] at h
    have hmod : (v.num.natAbs * 10 ^ k0) % v.den = 0 := by
      have hp := List.find?_some hf
      simpa using hp
    have h' : (((v.num.natAbs * 10 ^ k0) / v.den, k0) : Nat × Nat) = (n, k) := by
      injection h
    have hk : k0 = k ∧ (v.num.natAbs * 10 ^ k0) / v.den = n :=
      ⟨congrArg Prod.snd h', congrArg Prod.fst h'⟩
    rcases hk with ⟨rfl, rfl⟩
    exact (Nat.div_mul_cancel (Nat.dvd_of_mod_eq_zero hmod)).symm

theorem ofDigits_dropWhileZero : ∀ l : List Nat,
    Nat.ofDigits 10 l =
      Nat.ofDigits 10 (l.dropWhile (· == 0)) *
        10 ^ (l.length - (l.dropWhile (· == 0)).length)
  | [] => by simp
  | d :: t => by
    by_cases hd : d = 0
    · subst hd
      have hlen : (t.dropWhile (· == 0)).length ≤ t.length :=
        (List.dropWhile_sublist _).length_le
      have ih := ofDigits_dropWhileZero t
      rw [show List.dropWhile (· == 0) ((0:Nat) :: t) = t.dropWhile (· == 0) from by
        simp [List.dropWhile_cons]]
      rw [Nat.ofDigits_cons, ih]
      have hexp : (0 :: t : List Nat).length - (t.dropWhile (· == 0)).length
          = (t.length - (t.dropWhile (· == 0)).length) + 1 := by
        simp only [List.length_cons]
        omega
      rw [hexp, pow_succ]
      ring
    · have hne : ((d == 0) = false) := by simpa using hd
      rw [show List.dropWhile (· == 0) (d :: t) = d :: t from by
        simp [List.dropWhile_cons, hne]]
      simp

/-- When the integer-likeness guard fails, the `%g` rendering is never
in pure integer form: the scientific branch carries an `e`, the
fractional branches carry a `.`, and the digits-only branch forces the
value to be an integer below `1e6`, for which the guard would have
held. -/
theorem formatG_not_int {v : ℚ} (hg : looksLikeInt v = false) :
    isIntForm (formatG v) = false := by
  have hdpos : (0:Int) < (v.den : Int) := by exact_mod_cast v.den_pos
  by_cases h0 : v.num = 0
  · exfalso
    have htrue : looksLikeInt v = true := by
      unfold looksLikeInt
      rw [h0]
      simp [hdpos]
    rw [hg] at htrue
    cases htrue
  unfold formatG
  rw [if_neg h0]
  cases hde : decExpand v with
  | none => exact formatGCore_none_not_int _
  | some nk =>
    obtain ⟨n, k⟩ := nk
    by_cases hE : decExp n k < -4 ∨ 6 ≤ decExp n k
    · rw [show formatGCore (if v.num < 0 then "-" else "") (some (n, k))
          = fmtE (if v.num < 0 then "-" else "") (sigDigits n) (decExp n k) from by
        show (if decExp n k < -4 ∨ 6 ≤ decExp n k then _ else _) = _
        exact if_pos hE]
      exact fmtE_not_int _ _ _
    · rw [show formatGCore (if v.num < 0 then "-" else "") (some (n, k))
          = fmtF (if v.num < 0 then "-" else "") (sigDigits n) (decExp n k) from by
        show (if decExp n k < -4 ∨ 6 ≤ decExp n k then _ else _) = _
        exact if_neg hE]
      by_cases h0e : 0 ≤ decExp n k
      · by_cases hlen : (sigDigits n).length ≤ (decExp n k).toNat + 1
        · exfalso
          have hnk : v.num.natAbs * 10 ^ k = n * v.den := decExpand_some hde
          have hdseq : natDigitsL (n + 1) n = Nat.digits 10 n :=
            natDigitsL_eq_digits (n + 1) n (Nat.le_succ n)
          set L := (natDigitsL (n + 1) n).length with hL
          set sigL := (natDigitsL (n + 1) n).dropWhile (· == 0) with hsigL
          have hsiglen : (sigDigits n).length = sigL.length := by
            unfold sigDigits
            rw [List.length_map, List.length_reverse]
          have hofd : n = Nat.ofDigits 10 sigL * 10 ^ (L - sigL.length) := by
            have h1 : Nat.ofDigits 10 (natDigitsL (n + 1) n) = n := by
              rw [hdseq]
              exact Nat.ofDigits_digits 10 n
            have h2 := ofDigits_dropWhileZero (natDigitsL (n + 1) n)
            rw [h1] at h2
            exact h2
          have hnL : n < 10 ^ L := by
            rw [hL, hdseq]
            exact Nat.lt_base_pow_length_digits (by norm_num)
          have he : decExp n k = (L : Int) - 1 - (k : Int) := by
            unfold decExp
            rw [← hL]
          have hkL : k + 1 ≤ L := by
            rw [he] at h0e
            omega
          rw [hsiglen] at hlen
          rw [he] at hlen hE
          have hzk : k ≤ L - sigL.length := by omega
          set z := L - sigL.length with hz
          set S := Nat.ofDigits 10 sigL with hS
          have hfact : v.num.natAbs = S * 10 ^ (z - k) * v.den := by
            have h1 : v.num.natAbs * 10 ^ k = S * 10 ^ z * v.den := by
              rw [hnk, hofd]
            have h2 : S * 10 ^ z * v.den = S * 10 ^ (z - k) * v.den * 10 ^ k := by
              have hzz : z = (z - k) + k := by omega
              calc S * 10 ^ z * v.den = S * 10 ^ ((z - k) + k) * v.den := by rw [← hzz]
                _ = S * 10 ^ (z - k) * v.den * 10 ^ k := by rw [pow_add]; ring
            rw [h2] at h1
            exact Nat.eq_of_mul_eq_mul_right (pow_pos (by norm_num) k) h1
          have hdvd : v.den ∣ v.num.natAbs := ⟨S * 10 ^ (z - k), by rw [hfact]; ring⟩
          have hden1 : v.den = 1 := (v.reduced.symm).eq_one_of_dvd hdvd
          have hLk6 : L - k ≤ 6 := by omega
          have hbound : v.num.natAbs < 1000000 := by
            have h1 : v.num.natAbs * 10 ^ k = n := by rw [hnk, hden1, mul_one]
            have h2 : v.num.natAbs * 10 ^ k < 10 ^ L := by
              rw [h1]
              exact hnL
            have h3 : v.num.natAbs < 10 ^ (L - k) := by
              by_contra hcon
              push_neg at hcon
              have h4 : 10 ^ (L - k) * 10 ^ k ≤ v.num.natAbs * 10 ^ k :=
                Nat.mul_le_mul_right _ hcon
              rw [← pow_add, show L - k + k = L from by omega] at h4
              omega
            have h5 : (10:Nat) ^ (L - k) ≤ 10 ^ 6 := Nat.pow_le_pow_right (by norm_num) hLk6
            calc v.num.natAbs < 10 ^ (L - k) := h3
              _ ≤ 10 ^ 6 := h5
              _ = 1000000 := by norm_num
          have htrue : looksLikeInt v = true := by
            unfold looksLikeInt
            rw [hden1, Bool.and_eq_true, decide_eq_true_eq, decide_eq_true_eq]
            constructor
            · simp
            · push_cast
              omega
          rw [hg] at htrue
          cases htrue
        · exact fmtF_dot_not_int_pos _ _ _ h0e hlen
      · exact fmtF_neg_not_int _ _ _ h0e

set_option maxRecDepth 100000 in
/-- C6 is false on the code: at `v = -2e9` the magnitude is at or above
`1e9` — the claim demands the general decimal format (which would print
`-2e+09`) — yet the code's signed comparison `v < 1e9` holds and the
field renders in pure integer form. -/
theorem c6_counterexample :
    stringifyValue (JsonValue.num (-2000000000)) = ("-2000000000") ∧
    isIntForm (("-2000000000")) = true ∧
    ¬((-1000000000 : ℚ) < -2000000000 ∧ (-2000000000 : ℚ) < 1000000000) ∧
    formatG (-2000000000) = ("-2e+09") := by
  refine ⟨by decide, by decide, by decide, by decide⟩

/-- C6 (amended): the stringified float field renders in pure integer
form (digits and sign only — no decimal point, no exponent) exactly
when the fractional part of `v` is below `1e-6` and the signed value
`v` — not its magnitude — is below `1e9`.  (Negative values of any
magnitude therefore take the integer form when near-integral.) -/
theorem c6_int_rendering (v : ℚ) :
    isIntForm (stringifyValue (JsonValue.num v)) = true ↔
      (v - ⌊v⌋ < 1/1000000 ∧ v < 1000000000) := by
  rw [← looksLikeInt_iff]
  show isIntForm (if looksLikeInt v then intStr (Int.tdiv v.num (v.den : Int)) else formatG v)
      = true ↔ looksLikeInt v = true
  by_cases hg : looksLikeInt v = true
  · rw [if_pos hg, isIntForm_intStr]
    simp [hg]
  · have hgf : looksLikeInt v = false := Bool.eq_false_iff.mpr hg
    rw [if_neg hg, formatG_not_int hgf, hgf]

/-- Witness instantiating C6's amended equivalence at `v = 3`: the
rendered form is integer, hence the spec-side condition holds. -/
theorem c6_witness :
    (3:ℚ) - ⌊(3:ℚ)⌋ < 1/1000000 ∧ (3:ℚ) < 1000000000 :=
  (c6_int_rendering 3).mp (by decide)
